/-
Verification of the vello blend2d benchmark harness
(crate `vello_bench_blend2d`, with the workload generator shared with
`vello_bench/src/blend2d`).

The development shallowly embeds the benchmark core:
  * the calibration loop `run_single_test` (src/app.rs),
  * the deterministic workload generator `BenchRandom` (src/backend.rs),
  * the `VelloBackend` rendering driver's use of the generator streams
    (src/backend_vello_cpu.rs),
  * the baseline comparator, sticky-error accumulator and the table /
    JSON formatting helpers (src/app.rs).

Machine integers are embedded as `Nat`/`Int` (where wrapping or
saturation is reachable it is written out with `%` / `min`), `f64`
values that take part in exact comparisons and arithmetic are embedded
as `ℚ`, and fallible operations return `Except` / `Option`.  Wall-clock
durations returned by `Backend::run` are arbitrary: they are abstracted
as a function from the call number and the batch quantity to a duration
in microseconds.  The `rand::StdRng` generator, the JSON (de)serializer
and the file system are external collaborators; they enter the
embedding as quantified deterministic functions or as their result
values.
-/
import Mathlib

namespace VelloBench

/-! # Definitions

## Calibration algorithm (`run_single_test`, src/app.rs lines 242-290)

The Rust loop mutates `quantity`, `best` and `attempts`; the embedding
passes that state explicitly.  To let theorems speak about each call to
`backend.run`, the embedded loops additionally return the list of batch
quantities used by the calls, in order; call number `j` of an
invocation runs at quantity `log[j]`.  `d j q` is the duration (in
microseconds) that the backend's `run` reports for call number `j` at
quantity `q`. -/

/-- `u64::MAX`, the initial value of `best` in `run_single_test`. -/
def u64Max : ℕ := 2 ^ 64 - 1

/-- The geometric scaling step of the auto-detect phase: `×10` below
100µs, `×3` below 500µs, `×2` otherwise. -/
def scaleFactor (dur : ℕ) : ℕ :=
  if dur < 100 then 10 else if dur < 500 then 3 else 2

/-- Positivity of the scaling factor, needed inside `autoLoop`. -/
def scaleFactorPos (dur : ℕ) : 0 < scaleFactor dur := by
  unfold scaleFactor; split <;> [norm_num; split <;> norm_num]

/-- Result of the auto-detect phase: the duration of the last
(measuring) call, the settled quantity, and the quantity used by each
call, in order. -/
structure AutoOut where
  best : ℕ
  quantity : ℕ
  log : List ℕ
  deriving Repr, DecidableEq

/-- The auto-detect `loop` of `run_single_test` (entered only when
`configured_quantity == 0`): run once at `q`; stop when the duration
reaches 1000µs or `q` exceeds 1,000,000, otherwise scale `q` up and
retry.  `i` is the number of the next call into `d`.  The positivity
argument mirrors the fact that the loop is only entered at quantity 25;
it makes the geometric growth (and hence termination) provable. -/
def autoLoop (d : ℕ → ℕ → ℕ) (i q : ℕ) (hq : 0 < q) : AutoOut :=
  let dur := d i q
  if 1000 ≤ dur ∨ 1000000 < q then
    ⟨dur, q, [q]⟩
  else
    let rest := autoLoop d (i + 1) (q * scaleFactor dur)
      (Nat.mul_pos hq (scaleFactorPos dur))
    ⟨rest.best, rest.quantity, q :: rest.log⟩
termination_by 1000001 - q
decreasing_by
  rename_i h
  push_neg at h
  have hs : 2 ≤ scaleFactor dur := by
    unfold scaleFactor; split <;> [norm_num; split <;> norm_num]
  have hlt : q < q * scaleFactor dur := by
    calc q < q * 2 := by omega
    _ ≤ q * scaleFactor dur := Nat.mul_le_mul_left q hs
  exact Nat.sub_lt_sub_left (by omega) hlt

/-- The auto-detect phase as entered by `run_single_test`: the loop
starts at call number 0 with `INITIAL_QUANTITY = 25`. -/
def autoDetect (d : ℕ → ℕ → ℕ) : AutoOut := autoLoop d 0 25 (by norm_num)

/-- The sampling `while attempts < required_runs` loop of
`run_single_test`, with the remaining attempt count
`required_runs - attempts` made explicit (the Rust loop increments
`attempts`; the embedding counts the remaining iterations down).  Each
iteration runs the batch at the settled quantity `q` and keeps the
minimum duration.  Returns the best duration and the per-call quantity
log. -/
def sampleLoop (d : ℕ → ℕ → ℕ) (q : ℕ) : ℕ → ℕ → ℕ → ℕ × List ℕ
  | _, best, 0 => (best, [])
  | i, best, n + 1 =>
    let out := sampleLoop d q (i + 1) (min best (d i q)) n
    (out.1, q :: out.2)

/-- `run_single_test`, instrumented with the list of quantities used by
the calls to `backend.run`, in order (`log.length` is the number of
calls made).  When `configured_quantity == 0` the auto-detect phase
runs first, consumes its calls, and counts as one attempt; otherwise
`best` starts at the `u64::MAX` sentinel and no auto-detect call
happens. -/
def run_single_test_instr (d : ℕ → ℕ → ℕ) (configured_quantity min_runs : ℕ) :
    ℕ × ℕ × List ℕ :=
  let required_runs := max min_runs 1
  if configured_quantity = 0 then
    let a := autoDetect d
    let s := sampleLoop d a.quantity a.log.length a.best (required_runs - 1)
    (s.1, a.quantity, a.log ++ s.2)
  else
    let s := sampleLoop d configured_quantity 0 u64Max required_runs
    (s.1, configured_quantity, s.2)

/-- `run_single_test` as the source returns it: best duration and final
quantity. -/
def run_single_test (d : ℕ → ℕ → ℕ) (configured_quantity min_runs : ℕ) :
    ℕ × ℕ :=
  let r := run_single_test_instr d configured_quantity min_runs
  (r.1, r.2.1)

/-- The `min_runs` clamp applied by `BenchmarkConfig::from_args`
(src/app.rs line 66): `args.min_runs.max(1)`. -/
def fromArgsMinRuns (min_runs : ℕ) : ℕ := max min_runs 1

/-- Throughput in operations per millisecond, as computed per cell by
`BenchRunner::run_backend` (src/app.rs lines 163-167): zero duration
yields zero rather than a division fault. -/
def cpms (duration used_quantity : ℕ) : ℚ :=
  if duration = 0 then 0 else (used_quantity : ℚ) * 1000 / (duration : ℚ)

/-! ## Workload generator (`BenchRandom`, src/backend.rs lines 42-74)

`BenchRandom` wraps a `rand::StdRng` together with the seed it was
constructed from; `rewind` re-seeds (`StdRng::seed_from_u64(self.seed)`)
rather than saving and restoring.  The `StdRng` internals are an
external library: they are embedded as an abstract deterministic state
machine whose state is a `ℕ` — `sfu` models `StdRng::seed_from_u64`,
`fStep` and `iStep` model `Rng::random_range` on `f64` and `i32`
ranges, and `u32Step` models `RngCore::next_u32`.  All theorems hold
for every choice of these functions, i.e. for every deterministic PRNG
implementation. -/

structure BenchRandom where
  rng : ℕ
  seed : ℕ
  deriving Repr, DecidableEq

def BenchRandom.new (sfu : ℕ → ℕ) (seed : ℕ) : BenchRandom :=
  ⟨sfu seed, seed⟩

def BenchRandom.rewind (sfu : ℕ → ℕ) (g : BenchRandom) : BenchRandom :=
  ⟨sfu g.seed, g.seed⟩

def BenchRandom.next_f64 (fStep : ℚ → ℚ → ℕ → ℚ × ℕ) (g : BenchRandom)
    (lo hi : ℚ) : ℚ × BenchRandom :=
  let r := fStep lo hi g.rng
  (r.1, ⟨r.2, g.seed⟩)

def BenchRandom.next_i32 (iStep : ℤ → ℤ → ℕ → ℤ × ℕ) (g : BenchRandom)
    (lo hi : ℤ) : ℤ × BenchRandom :=
  let r := iStep lo hi g.rng
  (r.1, ⟨r.2, g.seed⟩)

/-- `next_bool` returns `self.rng.next_u32() & 1 == 1`. -/
def BenchRandom.next_bool (u32Step : ℕ → ℕ × ℕ) (g : BenchRandom) :
    Bool × BenchRandom :=
  let r := u32Step g.rng
  (r.1 % 2 == 1, ⟨r.2, g.seed⟩)

/-- `next_color` returns the raw `next_u32` word. -/
def BenchRandom.next_color (u32Step : ℕ → ℕ × ℕ) (g : BenchRandom) :
    ℕ × BenchRandom :=
  let r := u32Step g.rng
  (r.1, ⟨r.2, g.seed⟩)

/-- One draw request, as issued by a caller of `BenchRandom`. -/
inductive RngCall where
  | f64 (lo hi : ℚ)
  | i32 (lo hi : ℤ)
  | bool
  | color
  deriving Repr, DecidableEq

/-- One drawn value. -/
inductive RngVal where
  | f64 (v : ℚ)
  | i32 (v : ℤ)
  | bool (b : Bool)
  | color (c : ℕ)
  deriving Repr, DecidableEq

def rngStep (fStep : ℚ → ℚ → ℕ → ℚ × ℕ) (iStep : ℤ → ℤ → ℕ → ℤ × ℕ)
    (u32Step : ℕ → ℕ × ℕ) (c : RngCall) (g : BenchRandom) : RngVal × BenchRandom :=
  match c with
  | .f64 lo hi => let r := g.next_f64 fStep lo hi; (.f64 r.1, r.2)
  | .i32 lo hi => let r := g.next_i32 iStep lo hi; (.i32 r.1, r.2)
  | .bool => let r := g.next_bool u32Step; (.bool r.1, r.2)
  | .color => let r := g.next_color u32Step; (.color r.1, r.2)

/-- Replay a whole interleaving of draw calls, collecting the drawn
values in order. -/
def runCalls (fStep : ℚ → ℚ → ℕ → ℚ × ℕ) (iStep : ℤ → ℤ → ℕ → ℤ × ℕ)
    (u32Step : ℕ → ℕ × ℕ) : List RngCall → BenchRandom → List RngVal × BenchRandom
  | [], g => ([], g)
  | c :: rest, g =>
    let r := rngStep fStep iStep u32Step c g
    let out := runCalls fStep iStep u32Step rest r.2
    (r.1 :: out.1, out.2)

/-! ## Test catalog (src/tests.rs) -/

inductive ShapeKind where
  | Butterfly | Fish | Dragon | World
  deriving Repr, DecidableEq

inductive TestKind where
  | FillRectA | FillRectU | FillRectRot | FillRoundU | FillRoundRot
  | FillTriangle
  | FillPolyNZ10 | FillPolyEO10 | FillPolyNZ20 | FillPolyEO20
  | FillPolyNZ40 | FillPolyEO40
  | FillButterfly | FillFish | FillDragon | FillWorld
  | StrokeRectA | StrokeRectU | StrokeRectRot | StrokeRoundU | StrokeRoundRot
  | StrokeTriangle
  | StrokePoly10 | StrokePoly20 | StrokePoly40
  | StrokeButterfly | StrokeFish | StrokeDragon | StrokeWorld
  deriving Repr, DecidableEq

/-- `TestKind::ALL`, the default catalog, in source order. -/
def TestKind.ALL : List TestKind :=
  [.FillRectA, .FillRectU, .FillRectRot, .FillRoundU, .FillRoundRot,
   .FillTriangle,
   .FillPolyNZ10, .FillPolyEO10, .FillPolyNZ20, .FillPolyEO20,
   .FillPolyNZ40, .FillPolyEO40,
   .FillButterfly, .FillFish, .FillDragon, .FillWorld,
   .StrokeRectA, .StrokeRectU, .StrokeRectRot, .StrokeRoundU, .StrokeRoundRot,
   .StrokeTriangle,
   .StrokePoly10, .StrokePoly20, .StrokePoly40,
   .StrokeButterfly, .StrokeFish, .StrokeDragon, .StrokeWorld]

def TestKind.name : TestKind → String
  | .FillRectA => "FillRectA"
  | .FillRectU => "FillRectU"
  | .FillRectRot => "FillRectRot"
  | .FillRoundU => "FillRoundU"
  | .FillRoundRot => "FillRoundRot"
  | .FillTriangle => "FillTriangle"
  | .FillPolyNZ10 => "FillPolyNZi10"
  | .FillPolyEO10 => "FillPolyEOi10"
  | .FillPolyNZ20 => "FillPolyNZi20"
  | .FillPolyEO20 => "FillPolyEOi20"
  | .FillPolyNZ40 => "FillPolyNZi40"
  | .FillPolyEO40 => "FillPolyEOi40"
  | .FillButterfly => "FillButterfly"
  | .FillFish => "FillFish"
  | .FillDragon => "FillDragon"
  | .FillWorld => "FillWorld"
  | .StrokeRectA => "StrokeRectA"
  | .StrokeRectU => "StrokeRectU"
  | .StrokeRectRot => "StrokeRectRot"
  | .StrokeRoundU => "StrokeRoundU"
  | .StrokeRoundRot => "StrokeRoundRot"
  | .StrokeTriangle => "StrokeTriangle"
  | .StrokePoly10 => "StrokePoly10"
  | .StrokePoly20 => "StrokePoly20"
  | .StrokePoly40 => "StrokePoly40"
  | .StrokeButterfly => "StrokeButterfly"
  | .StrokeFish => "StrokeFish"
  | .StrokeDragon => "StrokeDragon"
  | .StrokeWorld => "StrokeWorld"

/-- `BENCH_SHAPE_SIZES`, the fixed ascending size ladder. -/
def BENCH_SHAPE_SIZES : List ℕ := [8, 16, 32, 64, 128, 256]

/-! ## Vello backend (src/backend_vello_cpu.rs)

The render context, the pixel surface, the timer and the path geometry
are external collaborators: the embedding keeps exactly the state that
feeds the three `BenchRandom` streams (the `u16` canvas dimensions and
the streams themselves) and records the trace of drawn values.  The
ctx-only loop variable `angle` of the rotated renderers never reaches
the streams and is elided. -/

def COORD_SEED : ℕ := 0x19AE0DDAE3FA7391
def COLOR_SEED : ℕ := 0x94BD7A499AD10011
def EXTRA_SEED : ℕ := 0x1ABD9CC9CAF0F123

/-- `BenchParams` as constructed by `BenchRunner::run_backend`
(src/app.rs lines 117-127): screen size (`f64` pair), test kind,
compositing-op (an index into `COMP_OPS`; it only reaches the external
render context), shape size, quantity and stroke width. -/
structure BenchParams where
  screen_width : ℚ
  screen_height : ℚ
  test : TestKind
  comp_op : ℕ
  shape_size : ℕ
  quantity : ℕ
  stroke_width : ℚ
  deriving DecidableEq

/-- `u32 as i32` (two's-complement reinterpretation). -/
def u32_to_i32 (n : ℕ) : ℤ :=
  if n % 2 ^ 32 < 2 ^ 31 then (n % 2 ^ 32 : ℤ) else (n % 2 ^ 32 : ℤ) - 2 ^ 32

/-- `f64 as u32` (truncation toward zero, saturating). -/
def f64_to_u32 (q : ℚ) : ℕ := min ⌊q⌋.toNat (2 ^ 32 - 1)

/-- `u16` wrapping subtraction `a - b` (for `a < 2^16`). -/
def u16Sub (a b : ℕ) : ℕ := (a % 65536 + 65536 - b % 65536) % 65536

inductive StreamTag where
  | coord | color | extra
  deriving Repr, DecidableEq

/-- One value drawn from one of the three streams during a render. -/
structure DrawEvent where
  stream : StreamTag
  val : RngVal
  deriving Repr, DecidableEq

structure VelloBackend where
  width : ℕ
  height : ℕ
  coord_rng : BenchRandom
  color_rng : BenchRandom
  extra_rng : BenchRandom
  deriving DecidableEq

/-- `VelloBackend::new`: the canvas dimensions are truncated to `u16`
and the three streams are seeded from the fixed constants (the thread
count only names the backend and configures the external renderer). -/
def VelloBackend.new (sfu : ℕ → ℕ) (width height : ℕ) (_threads : ℕ) :
    VelloBackend :=
  ⟨width % 65536, height % 65536,
    BenchRandom.new sfu COORD_SEED,
    BenchRandom.new sfu COLOR_SEED,
    BenchRandom.new sfu EXTRA_SEED⟩

/-- `reset_state` rewinds all three streams. -/
def VelloBackend.reset_state (sfu : ℕ → ℕ) (b : VelloBackend) : VelloBackend :=
  { b with
    coord_rng := b.coord_rng.rewind sfu,
    color_rng := b.color_rng.rewind sfu,
    extra_rng := b.extra_rng.rewind sfu }

/-- `ensure_context`: resize (recreating the external context and
surface) only when the `u16`-truncated target differs. -/
def VelloBackend.ensure_context (b : VelloBackend) (screen_w screen_h : ℕ) :
    VelloBackend :=
  let target_w := screen_w % 65536
  let target_h := screen_h % 65536
  if target_w ≠ b.width ∨ target_h ≠ b.height then
    { b with width := target_w, height := target_h }
  else b

/-- `prepare_context`: resizes to the params' screen size; the stroke
width and blend mode only reach the external render context. -/
def VelloBackend.prepare_context (b : VelloBackend) (params : BenchParams) :
    VelloBackend :=
  b.ensure_context (f64_to_u32 params.screen_width) (f64_to_u32 params.screen_height)

/-- `random_color` draws one raw `u32` word from the color stream (the
conversion to float components only reaches the external context). -/
def VelloBackend.random_color (u32Step : ℕ → ℕ × ℕ) (b : VelloBackend) :
    ℕ × VelloBackend :=
  let r := b.color_rng.next_color u32Step
  (r.1, { b with color_rng := r.2 })

/-- A `for _ in 0..quantity` render loop whose body's stream use does
not depend on the loop counter (true of every renderer below: the
ctx-only `angle` accumulator is the only per-iteration variable). -/
def renderLoop (body : VelloBackend → VelloBackend × List DrawEvent) :
    ℕ → VelloBackend → VelloBackend × List DrawEvent
  | 0, b => (b, [])
  | n + 1, b =>
    let r := body b
    let rest := renderLoop body n r.1
    (rest.1, r.2 ++ rest.2)

def VelloBackend.render_rect_aligned (iStep : ℤ → ℤ → ℕ → ℤ × ℕ)
    (u32Step : ℕ → ℕ × ℕ) (params : BenchParams) (b : VelloBackend) :
    VelloBackend × List DrawEvent :=
  let bounds_x : ℤ := max ((b.width : ℤ) - u32_to_i32 params.shape_size) 1
  let bounds_y : ℤ := max ((b.height : ℤ) - u32_to_i32 params.shape_size) 1
  renderLoop (fun s =>
    let rx := s.coord_rng.next_i32 iStep 0 bounds_x
    let s := { s with coord_rng := rx.2 }
    let ry := s.coord_rng.next_i32 iStep 0 bounds_y
    let s := { s with coord_rng := ry.2 }
    let rc := s.random_color u32Step
    (rc.2, [⟨.coord, .i32 rx.1⟩, ⟨.coord, .i32 ry.1⟩, ⟨.color, .color rc.1⟩]))
    params.quantity b

def VelloBackend.render_rect_floating (fStep : ℚ → ℚ → ℕ → ℚ × ℕ)
    (u32Step : ℕ → ℕ × ℕ) (params : BenchParams) (b : VelloBackend) :
    VelloBackend × List DrawEvent :=
  let bw : ℚ := (u16Sub b.width params.shape_size : ℕ)
  let bh : ℚ := (u16Sub b.height params.shape_size : ℕ)
  renderLoop (fun s =>
    let rx := s.coord_rng.next_f64 fStep 0 bw
    let s := { s with coord_rng := rx.2 }
    let ry := s.coord_rng.next_f64 fStep 0 bh
    let s := { s with coord_rng := ry.2 }
    let rc := s.random_color u32Step
    (rc.2, [⟨.coord, .f64 rx.1⟩, ⟨.coord, .f64 ry.1⟩, ⟨.color, .color rc.1⟩]))
    params.quantity b

/-- Identical stream use to `render_rect_floating`; the rotation only
reaches the external context. -/
def VelloBackend.render_rect_rotated (fStep : ℚ → ℚ → ℕ → ℚ × ℕ)
    (u32Step : ℕ → ℕ × ℕ) (params : BenchParams) (b : VelloBackend) :
    VelloBackend × List DrawEvent :=
  let bw : ℚ := (u16Sub b.width params.shape_size : ℕ)
  let bh : ℚ := (u16Sub b.height params.shape_size : ℕ)
  renderLoop (fun s =>
    let rx := s.coord_rng.next_f64 fStep 0 bw
    let s := { s with coord_rng := rx.2 }
    let ry := s.coord_rng.next_f64 fStep 0 bh
    let s := { s with coord_rng := ry.2 }
    let rc := s.random_color u32Step
    (rc.2, [⟨.coord, .f64 rx.1⟩, ⟨.coord, .f64 ry.1⟩, ⟨.color, .color rc.1⟩]))
    params.quantity b

/-- `render_round`: x and y from the coordinate stream, the corner
radius from the auxiliary stream, then the color word. -/
def VelloBackend.render_round (fStep : ℚ → ℚ → ℕ → ℚ × ℕ)
    (u32Step : ℕ → ℕ × ℕ) (params : BenchParams) (_rotate : Bool)
    (b : VelloBackend) : VelloBackend × List DrawEvent :=
  let bw : ℚ := (u16Sub b.width params.shape_size : ℕ)
  let bh : ℚ := (u16Sub b.height params.shape_size : ℕ)
  renderLoop (fun s =>
    let rx := s.coord_rng.next_f64 fStep 0 bw
    let s := { s with coord_rng := rx.2 }
    let ry := s.coord_rng.next_f64 fStep 0 bh
    let s := { s with coord_rng := ry.2 }
    let rr := s.extra_rng.next_f64 fStep 4 40
    let s := { s with extra_rng := rr.2 }
    let rc := s.random_color u32Step
    (rc.2, [⟨.coord, .f64 rx.1⟩, ⟨.coord, .f64 ry.1⟩,
      ⟨.extra, .f64 rr.1⟩, ⟨.color, .color rc.1⟩]))
    params.quantity b

/-- The inner `for i in 0..complexity` vertex loop of `render_polygon`:
each vertex draws x in `[base_x, base_x + size)` and y in
`[base_y, base_y + size)` from the coordinate stream. -/
def polygonPoints (fStep : ℚ → ℚ → ℕ → ℚ × ℕ) (base_x base_y size : ℚ) :
    ℕ → BenchRandom → BenchRandom × List DrawEvent
  | 0, g => (g, [])
  | n + 1, g =>
    let rx := g.next_f64 fStep base_x (base_x + size)
    let ry := rx.2.next_f64 fStep base_y (base_y + size)
    let rest := polygonPoints fStep base_x base_y size n ry.2
    (rest.1, ⟨.coord, .f64 rx.1⟩ :: ⟨.coord, .f64 ry.1⟩ :: rest.2)

def VelloBackend.render_polygon (fStep : ℚ → ℚ → ℕ → ℚ × ℕ)
    (u32Step : ℕ → ℕ × ℕ) (params : BenchParams) (complexity : ℕ)
    (b : VelloBackend) : VelloBackend × List DrawEvent :=
  let bw : ℚ := (u16Sub b.width params.shape_size : ℕ)
  let bh : ℚ := (u16Sub b.height params.shape_size : ℕ)
  let size : ℚ := (params.shape_size : ℚ)
  renderLoop (fun s =>
    let rx := s.coord_rng.next_f64 fStep 0 bw
    let s := { s with coord_rng := rx.2 }
    let ry := s.coord_rng.next_f64 fStep 0 bh
    let s := { s with coord_rng := ry.2 }
    let pts := polygonPoints fStep rx.1 ry.1 size complexity s.coord_rng
    let s := { s with coord_rng := pts.1 }
    let rc := s.random_color u32Step
    (rc.2, ⟨.coord, .f64 rx.1⟩ :: ⟨.coord, .f64 ry.1⟩ ::
      (pts.2 ++ [⟨.color, .color rc.1⟩])))
    params.quantity b

def VelloBackend.render_shape (fStep : ℚ → ℚ → ℕ → ℚ × ℕ)
    (u32Step : ℕ → ℕ × ℕ) (params : BenchParams) (_kind : ShapeKind)
    (b : VelloBackend) : VelloBackend × List DrawEvent :=
  let bw : ℚ := (u16Sub b.width params.shape_size : ℕ)
  let bh : ℚ := (u16Sub b.height params.shape_size : ℕ)
  renderLoop (fun s =>
    let rx := s.coord_rng.next_f64 fStep 0 bw
    let s := { s with coord_rng := rx.2 }
    let ry := s.coord_rng.next_f64 fStep 0 bh
    let s := { s with coord_rng := ry.2 }
    let rc := s.random_color u32Step
    (rc.2, [⟨.coord, .f64 rx.1⟩, ⟨.coord, .f64 ry.1⟩, ⟨.color, .color rc.1⟩]))
    params.quantity b

/-- `VelloBackend::run` (src/backend_vello_cpu.rs lines 291-329):
reset all three streams to their seeded start state, prepare the
context, then dispatch on the test kind.  The returned trace is the
sequence of values drawn from the streams during the batch; the timer,
flush and pixmap rendering are external. -/
def VelloBackend.run (sfu : ℕ → ℕ) (fStep : ℚ → ℚ → ℕ → ℚ × ℕ)
    (iStep : ℤ → ℤ → ℕ → ℤ × ℕ) (u32Step : ℕ → ℕ × ℕ)
    (params : BenchParams) (b : VelloBackend) : VelloBackend × List DrawEvent :=
  let b := b.reset_state sfu
  let b := b.prepare_context params
  match params.test with
  | .FillRectA | .StrokeRectA => b.render_rect_aligned iStep u32Step params
  | .FillRectU | .StrokeRectU => b.render_rect_floating fStep u32Step params
  | .FillRectRot | .StrokeRectRot => b.render_rect_rotated fStep u32Step params
  | .FillRoundU | .StrokeRoundU => b.render_round fStep u32Step params false
  | .FillRoundRot | .StrokeRoundRot => b.render_round fStep u32Step params true
  | .FillTriangle | .StrokeTriangle => b.render_polygon fStep u32Step params 3
  | .FillPolyNZ10 | .FillPolyEO10 | .StrokePoly10 =>
    b.render_polygon fStep u32Step params 10
  | .FillPolyNZ20 | .FillPolyEO20 | .StrokePoly20 =>
    b.render_polygon fStep u32Step params 20
  | .FillPolyNZ40 | .FillPolyEO40 | .StrokePoly40 =>
    b.render_polygon fStep u32Step params 40
  | .FillButterfly | .StrokeButterfly =>
    b.render_shape fStep u32Step params .Butterfly
  | .FillFish | .StrokeFish => b.render_shape fStep u32Step params .Fish
  | .FillDragon | .StrokeDragon => b.render_shape fStep u32Step params .Dragon
  | .FillWorld | .StrokeWorld => b.render_shape fStep u32Step params .World

/-- A sequence of preceding `run` invocations (only the state matters
for later runs; their traces are dropped). -/
def runMany (sfu : ℕ → ℕ) (fStep : ℚ → ℚ → ℕ → ℚ × ℕ)
    (iStep : ℤ → ℤ → ℕ → ℤ × ℕ) (u32Step : ℕ → ℕ × ℕ) :
    List BenchParams → VelloBackend → VelloBackend
  | [], b => b
  | p :: ps, b =>
    runMany sfu fStep iStep u32Step ps
      (VelloBackend.run sfu fStep iStep u32Step p b).1

/-- The three stored stream seeds of a backend. -/
def VelloBackend.seeds (b : VelloBackend) : ℕ × ℕ × ℕ :=
  (b.coord_rng.seed, b.color_rng.seed, b.extra_rng.seed)

/-! ## Sticky-error baseline accumulator (`BaselineSum`, src/app.rs
lines 412-445)

The running total is an `f64` in the source; it is embedded as `ℚ`
(the accumulator's control flow does not depend on rounding). -/

structure BaselineSum where
  total : ℚ
  has_value : Bool
  error : Option String
  deriving Repr, DecidableEq

/-- `BaselineSum::default()`. -/
def BaselineSum.init : BaselineSum := ⟨0, false, none⟩

def BaselineSum.push (s : BaselineSum) (entry : Except String ℚ) : BaselineSum :=
  match entry with
  | .ok value =>
    if s.error = none then
      { s with total := s.total + value, has_value := true }
    else s
  | .error err =>
    if s.error = none then { s with error := some err } else s

def BaselineSum.finish (s : BaselineSum) : Except String ℚ :=
  match s.error with
  | some err => .error err
  | none => if s.has_value then .ok s.total else .error "missing baseline value"

/-- Push a whole sequence of entries, starting from the default
accumulator. -/
def pushAll (l : List (Except String ℚ)) : BaselineSum :=
  l.foldl BaselineSum.push BaselineSum.init

/-- The first error in a sequence of entries, if any. -/
def firstError (l : List (Except String ℚ)) : Option String :=
  l.findSome? fun e =>
    match e with
    | .error s => some s
    | .ok _ => none

/-! ## Cell formatting (`format_cpms`, `format_cell`, src/app.rs lines
338-350 and 372-393)

`format!("{v:.n}")` on a nonnegative finite `f64` renders the value
rounded to `n` decimal places; the embedding renders a nonnegative `ℚ`
the same way (no claim exercises an exact rounding tie, where the two
could differ).  Decimal digit strings are produced by an explicit
digit-list renderer so that theorems can count fractional digits. -/

def digitChar : ℕ → Char
  | 0 => '0' | 1 => '1' | 2 => '2' | 3 => '3' | 4 => '4'
  | 5 => '5' | 6 => '6' | 7 => '7' | 8 => '8' | _ => '9'

/-- Little-endian decimal digits of `n`, with explicit fuel (`n + 1` is
always enough). -/
def natDigitsLE (fuel : ℕ) (n : ℕ) : List Char :=
  match fuel with
  | 0 => []
  | fuel + 1 => if n < 10 then [digitChar n] else digitChar (n % 10) :: natDigitsLE fuel (n / 10)

/-- Big-endian decimal representation of `n`. -/
def natRepr (n : ℕ) : List Char := (natDigitsLE (n + 1) n).reverse

/-- Exactly `n` big-endian decimal digits of `m` (leading zeros kept):
the fractional part of a fixed-precision rendering. -/
def natDigitsPadded (m : ℕ) : ℕ → List Char
  | 0 => []
  | n + 1 => natDigitsPadded (m / 10) n ++ [digitChar (m % 10)]

/-- `format!("{value:.n}")` for a nonnegative value: round
`value * 10^n` to the nearest integer and print integer and fractional
parts (negative values never reach the formatter: throughput is
nonnegative). -/
def fmtDecimals (value : ℚ) (n : ℕ) : String :=
  let scaled : ℕ := ⌊value * 10 ^ n + 1 / 2⌋.toNat
  if n = 0 then String.mk (natRepr scaled)
  else String.mk (natRepr (scaled / 10 ^ n) ++ '.' :: natDigitsPadded (scaled % 10 ^ n) n)

/-- `format_cpms` (src/app.rs lines 338-350): precision scaling with
magnitude.  Note the first two comparisons are inclusive (`<=`) in the
source. -/
def format_cpms (value : ℚ) : String :=
  if value ≤ 1 / 10 then fmtDecimals value 4
  else if value ≤ 1 then fmtDecimals value 3
  else if value < 10 then fmtDecimals value 2
  else if value < 100 then fmtDecimals value 1
  else fmtDecimals value 0

/-- Number of characters after the (unique) '.' of a rendered number,
0 when there is none. -/
def fracDigits (s : String) : ℕ :=
  if '.' ∈ s.data then (s.data.reverse.takeWhile (fun c => c != '.')).length
  else 0

/-- `f64::EPSILON` = 2⁻⁵². -/
def EPSILON : ℚ := 1 / 2 ^ 52

instance {ε α : Type} [DecidableEq ε] [DecidableEq α] : DecidableEq (Except ε α) :=
  fun x y =>
    match x, y with
    | .ok a, .ok b =>
      if h : a = b then .isTrue (by rw [h])
      else .isFalse (by intro hh; cases hh; exact h rfl)
    | .error a, .error b =>
      if h : a = b then .isTrue (by rw [h])
      else .isFalse (by intro hh; cases hh; exact h rfl)
    | .ok _, .error _ => .isFalse (by intro hh; cases hh)
    | .error _, .ok _ => .isFalse (by intro hh; cases hh)

/-- One display cell: raw throughput, its formatted string, and the
optional baseline lookup result. -/
structure CellData where
  raw : ℚ
  formatted : String
  baseline : Option (Except String ℚ)
  deriving DecidableEq

inductive DeltaClass where
  | improvement | regression | noise
  deriving Repr, DecidableEq

/-- What `format_cell` appends after the formatted value: nothing, the
red `(baseline 0)` annotation, a classified percentage delta (green /
red / dim per class), or a red error annotation. -/
inductive CellMark where
  | plain
  | baselineZero
  | delta (diff : ℚ) (cls : DeltaClass)
  | missing (msg : String)
  deriving Repr, DecidableEq

/-- `format_cell` (src/app.rs lines 372-393), with the ANSI-colored
string concatenation abstracted to the pair (base string, mark). -/
def format_cell (cell : CellData) : String × CellMark :=
  (cell.formatted,
    match cell.baseline with
    | none => .plain
    | some (.ok baseline) =>
      if |baseline| ≤ EPSILON then .baselineZero
      else
        let diff := (cell.raw - baseline) / baseline * 100
        if 3 ≤ diff then .delta diff .improvement
        else if diff ≤ -3 then .delta diff .regression
        else .delta diff .noise
    | some (.error err) => .missing err)

/-! ## Baseline comparator (`Baseline`, src/app.rs lines 506-580)

`fs::read_to_string` and `serde_json::from_str` are external; the
embedding takes their combined outcome (`Except` error for an absent,
unreadable or unparseable file, or the parsed document).  `f64` parsing
of the stored throughput strings is likewise an external function
`parse_f64`. -/

structure BaselineRecord where
  test_name : String
  rcpms : List String
  deriving DecidableEq

structure BaselineRun where
  name : String
  records : List BaselineRecord
  deriving DecidableEq

structure BaselineOptions where
  sizes : List String
  deriving DecidableEq

structure BaselineRoot where
  options : BaselineOptions
  runs : List BaselineRun
  deriving DecidableEq

/-- `parse_size_label`: the part of the label before the first 'x',
trimmed, parsed as `u32` (`splitOn` always yields at least one part, so
only the numeric parse can fail, as in the source). -/
def parse_size_label (label : String) : Except String ℕ :=
  match ((label.splitOn "x").headD "").trim.toNat? with
  | some v => if v < 2 ^ 32 then .ok v else .error ("invalid baseline size " ++ label)
  | none => .error ("invalid baseline size " ++ label)

structure Baseline where
  entries : List ((String × String × ℕ) × ℚ)
  deriving DecidableEq

/-- Index construction from a parsed baseline document: parse all size
labels (any failure aborts the load), then insert one entry per
parsable `rcpms` string positionally aligned with a declared size
(unparsable strings and out-of-range positions are skipped).  The
`HashMap` is embedded as an association list with newest-first lookup,
matching `insert` overwrite semantics. -/
def Baseline.ofRoot (parse_f64 : String → Option ℚ) (root : BaselineRoot) :
    Except String Baseline := do
  let sizes ← root.options.sizes.mapM parse_size_label
  let entries := root.runs.foldl (fun acc run =>
    run.records.foldl (fun acc rec =>
      rec.rcpms.enum.foldl (fun acc p =>
        match sizes.get? p.1 with
        | none => acc
        | some size =>
          match parse_f64 p.2 with
          | some v => ((run.name, rec.test_name, size), v) :: acc
          | none => acc) acc) acc) []
  pure ⟨entries⟩

/-- `Baseline::load`: propagate the read/parse error, then build the
index. -/
def Baseline.load (parse_f64 : String → Option ℚ)
    (readAndParse : Except String BaselineRoot) : Except String Baseline :=
  match readAndParse with
  | .error e => .error e
  | .ok root => Baseline.ofRoot parse_f64 root

/-- `Baseline::lookup`: a missing entry is a per-cell error value, not
an abort. -/
def Baseline.lookup (b : Baseline) (backend test : String) (size : ℕ) :
    Except String ℚ :=
  match b.entries.find? (fun e => e.1 = (backend, test, size)) with
  | some e => .ok e.2
  | none => .error "missing baseline value"

/-- `BenchRunner::new` (src/app.rs lines 84-98): `config.baseline.map(load).transpose()?` —
a load failure aborts construction (before any measurement), otherwise
the runner holds the optional index. -/
def BenchRunner.new (loadResult : Option (Except String Baseline)) :
    Except String (Option Baseline) :=
  match loadResult with
  | none => .ok none
  | some (.ok b) => .ok (some b)
  | some (.error e) => .error e

/-! ## Orchestrator (`BenchRunner::run_backend`, src/app.rs lines
115-220)

The backend, its timing and `run_single_test` are summarized per cell
by the measurement oracle `meas : TestKind → ℕ → ℕ × ℕ`, giving the
(best duration, used quantity) that `run_single_test` returns for a
(test, size) cell; the printing layer is external, so a table row is
embedded as the test label plus the formatted cells in column order. -/

structure JsonRecord where
  test_name : String
  comp_op : String
  style : String
  rcpms : List String
  deriving DecidableEq

def SOLID_STYLE : String := "Solid"

/-- `DEFAULT_COMP_OP` is `COMP_OPS[0]`, the `SrcOver` entry. -/
def DEFAULT_COMP_OP_NAME : String := "SrcOver"

/-- The inner size loop for one test: for each ladder size in order,
measure, compute the throughput, format it, and look up the baseline. -/
def testCells (meas : TestKind → ℕ → ℕ × ℕ) (bl : Option Baseline)
    (backendName : String) (t : TestKind) (sizes : List ℕ) : List CellData :=
  sizes.map fun s =>
    let r := meas t s
    let c := cpms r.1 r.2
    ⟨c, format_cpms c, bl.map fun b => b.lookup backendName t.name s⟩

/-- The test loop: one printed row and one `JsonRecord` pushed per
test, in test order. -/
def run_backend_core (meas : TestKind → ℕ → ℕ × ℕ) (bl : Option Baseline)
    (backendName : String) (sizes : List ℕ) :
    List TestKind → List (String × List (String × CellMark)) × List JsonRecord
  | [] => ([], [])
  | t :: rest =>
    let cells := testCells meas bl backendName t sizes
    let row := (t.name, cells.map format_cell)
    let record : JsonRecord :=
      ⟨t.name, DEFAULT_COMP_OP_NAME, SOLID_STYLE, cells.map (·.formatted)⟩
    let out := run_backend_core meas bl backendName sizes rest
    (row :: out.1, record :: out.2)

/-- The per-size totals accumulated across tests (`totals[index] += cpms`). -/
def runTotals (meas : TestKind → ℕ → ℕ × ℕ) (sizes : List ℕ)
    (tests : List TestKind) : List ℚ :=
  tests.foldl
    (fun acc t => List.zipWith (· + ·) acc
      (sizes.map fun s => cpms (meas t s).1 (meas t s).2))
    (List.replicate sizes.length 0)

/-- The per-size sticky-error baseline sums for the `Total` row. -/
def runBaselineTotals (bl : Baseline)
    (backendName : String) (sizes : List ℕ) (tests : List TestKind) :
    List BaselineSum :=
  tests.foldl
    (fun acc t => List.zipWith BaselineSum.push acc
      (sizes.map fun s => bl.lookup backendName t.name s))
    (List.replicate sizes.length BaselineSum.init)

/-- One backend pass: the per-test rows and records, the `Total` row,
in emission order. -/
structure RunBackendOut where
  rows : List (String × List (String × CellMark))
  total_row : String × List (String × CellMark)
  records : List JsonRecord
  deriving DecidableEq

def run_backend (meas : TestKind → ℕ → ℕ × ℕ) (bl : Option Baseline)
    (backendName : String) (tests : List TestKind) (sizes : List ℕ) :
    RunBackendOut :=
  let core := run_backend_core meas bl backendName sizes tests
  let totals := runTotals meas sizes tests
  let total_baseline : List (Option (Except String ℚ)) :=
    match bl with
    | some b =>
      (runBaselineTotals b backendName sizes tests).map fun e => some e.finish
    | none => List.replicate sizes.length none
  let total_cells : List CellData :=
    (totals.zip total_baseline).map fun p => ⟨p.1, format_cpms p.1, p.2⟩
  ⟨core.1, ("Total", total_cells.map format_cell), core.2⟩

/-- `parse_toggle_list` (src/app.rs lines 292-336).  The `HashSet` is
embedded as an insertion-ordered duplicate-free list; the iteration
order of the real `HashSet` is unspecified, and no theorem below
depends on the order of a filtered selection.  Case-insensitive ASCII
matching is embedded via `toLower`. -/
def parse_toggle_list {T : Type} [DecidableEq T] (list : Option String)
    (items : List (String × T)) (default_items : List T) :
    Except String (List T) :=
  match list with
  | none => .ok default_items
  | some l =>
    let step := fun (acc : Except String (Option Int × List T)) (raw : String) =>
      match acc with
      | .error e => .error e
      | .ok (include_mode, result) =>
        let token := raw.trim
        if token = "" then .ok (include_mode, result)
        else
          let mode : Int := if token.startsWith "-" then -1 else 1
          let name := if token.startsWith "-" then token.drop 1 else token
          if include_mode.getD mode ≠ mode then
            .error "Cannot mix additive and subtractive entries"
          else
            match items.find? (fun it => it.1.toLower = name.toLower) with
            | none => .error ("Unknown entry " ++ name)
            | some it =>
              .ok (some mode,
                if result.contains it.2 then result else result ++ [it.2])
    match (l.splitOn ",").foldl step (.ok (none, [])) with
    | .error e => .error e
    | .ok (include_mode, result) =>
      match include_mode.getD 1 with
      | 1 => .ok result
      | _ => .ok (default_items.filter (fun t => ¬ result.contains t))

/-! # Theorems -/

theorem two_le_scaleFactor (dur : ℕ) : 2 ≤ scaleFactor dur := by
  unfold scaleFactor; split <;> [norm_num; split <;> norm_num]

theorem autoLoop_spec (d : ℕ → ℕ → ℕ) (i q : ℕ) (hq : 0 < q) :
    (autoLoop d i q hq).log.length ≠ 0 ∧
    (autoLoop d i q hq).log.getD 0 0 = q ∧
    (autoLoop d i q hq).quantity =
      (autoLoop d i q hq).log.getD ((autoLoop d i q hq).log.length - 1) 0 ∧
    (autoLoop d i q hq).best =
      d (i + ((autoLoop d i q hq).log.length - 1)) (autoLoop d i q hq).quantity ∧
    (∀ k, k + 1 < (autoLoop d i q hq).log.length →
      (autoLoop d i q hq).log.getD (k + 1) 0 =
        (autoLoop d i q hq).log.getD k 0 *
          scaleFactor (d (i + k) ((autoLoop d i q hq).log.getD k 0))) ∧
    (∀ k, k + 1 < (autoLoop d i q hq).log.length →
      d (i + k) ((autoLoop d i q hq).log.getD k 0) < 1000 ∧
        (autoLoop d i q hq).log.getD k 0 ≤ 1000000) ∧
    (1000 ≤ d (i + ((autoLoop d i q hq).log.length - 1)) (autoLoop d i q hq).quantity ∨
      1000000 < (autoLoop d i q hq).quantity) := by
  induction i, q, hq using autoLoop.induct d with
  | case1 i q hq dur hexit =>
    have hA : autoLoop d i q hq = ⟨d i q, q, [q]⟩ := by
      rw [autoLoop]; simp only [if_pos hexit]
    rw [hA]
    refine ⟨by simp, by simp, by simp, by simp, by simp, by simp, ?_⟩
    simpa using hexit
  | case2 i q hq dur hcont ih =>
    set rest := autoLoop d (i + 1) (q * scaleFactor (d i q))
      (Nat.mul_pos hq (scaleFactorPos (d i q))) with hrestdef
    have hA : autoLoop d i q hq = ⟨rest.best, rest.quantity, q :: rest.log⟩ := by
      rw [autoLoop]; simp only [if_neg hcont]
    obtain ⟨hlen, hhead, hlast, hbest, hstep, hnoexit, hexit⟩ := ih
    push_neg at hcont
    obtain ⟨m, hm⟩ := Nat.exists_eq_succ_of_ne_zero hlen
    rw [hA]
    refine ⟨by simp, by simp, ?_, ?_, ?_, ?_, ?_⟩
    · simp only [List.length_cons, Nat.add_sub_cancel, hm]
      rw [List.getD_cons_succ]
      simpa [hm] using hlast
    · simp only [List.length_cons, Nat.add_sub_cancel, hm]
      rw [show i + (m + 1) = i + 1 + m by omega]
      simpa [hm] using hbest
    · intro k hk
      cases k with
      | zero =>
        simp only [List.getD_cons_succ, List.getD_cons_zero, Nat.add_zero]
        simpa using hhead
      | succ k =>
        simp only [List.getD_cons_succ]
        have hk' : k + 1 < rest.log.length := by
          simp only [List.length_cons] at hk; omega
        rw [show i + (k + 1) = i + 1 + k by omega]
        exact hstep k hk'
    · intro k hk
      cases k with
      | zero =>
        simp only [List.getD_cons_zero, Nat.add_zero]
        exact ⟨hcont.1, hcont.2⟩
      | succ k =>
        simp only [List.getD_cons_succ]
        have hk' : k + 1 < rest.log.length := by
          simp only [List.length_cons] at hk; omega
        rw [show i + (k + 1) = i + 1 + k by omega]
        exact hnoexit k hk'
    · simp only [List.length_cons, Nat.add_sub_cancel, hm]
      rw [show i + (m + 1) = i + 1 + m by omega]
      simpa [hm] using hexit

theorem autoLoop_length_le (d : ℕ → ℕ → ℕ) :
    ∀ (n i q : ℕ) (hq : 0 < q), 1000000 < q * 2 ^ n →
      (autoLoop d i q hq).log.length ≤ n + 1 := by
  intro n
  induction n with
  | zero =>
    intro i q hq hbig
    rw [autoLoop]
    rw [if_pos (Or.inr (by simpa using hbig))]
    simp
  | succ n ih =>
    intro i q hq hbig
    rw [autoLoop]
    by_cases hc : 1000 ≤ d i q ∨ 1000000 < q
    · rw [if_pos hc]; simp
    · rw [if_neg hc]
      simp only [List.length_cons]
      have hib : 1000000 < q * scaleFactor (d i q) * 2 ^ n := by
        calc 1000000 < q * 2 ^ (n + 1) := hbig
        _ = q * 2 * 2 ^ n := by ring
        _ ≤ q * scaleFactor (d i q) * 2 ^ n :=
          Nat.mul_le_mul_right _ (Nat.mul_le_mul_left q (two_le_scaleFactor (d i q)))
      have := ih (i + 1) (q * scaleFactor (d i q))
        (Nat.mul_pos hq (scaleFactorPos (d i q))) hib
      omega

theorem sampleLoop_log (d : ℕ → ℕ → ℕ) (q : ℕ) :
    ∀ (n i best : ℕ), (sampleLoop d q i best n).2 = List.replicate n q := by
  intro n
  induction n with
  | zero => intro i best; rfl
  | succ n ih => intro i best; simp [sampleLoop, ih, List.replicate_succ]

theorem sampleLoop_best_le_init (d : ℕ → ℕ → ℕ) (q : ℕ) :
    ∀ (n i best : ℕ), (sampleLoop d q i best n).1 ≤ best := by
  intro n
  induction n with
  | zero => intro i best; exact le_refl _
  | succ n ih =>
    intro i best
    simp only [sampleLoop]
    exact le_trans (ih (i + 1) (min best (d i q))) (min_le_left _ _)

theorem sampleLoop_best_le (d : ℕ → ℕ → ℕ) (q : ℕ) :
    ∀ (n i best k : ℕ), k < n → (sampleLoop d q i best n).1 ≤ d (i + k) q := by
  intro n
  induction n with
  | zero => intro i best k hk; omega
  | succ n ih =>
    intro i best k hk
    simp only [sampleLoop]
    cases k with
    | zero =>
      simpa using le_trans (sampleLoop_best_le_init d q n (i + 1) (min best (d i q)))
        (min_le_right _ _)
    | succ k =>
      rw [show i + (k + 1) = i + 1 + k by omega]
      exact ih (i + 1) (min best (d i q)) k (by omega)

theorem sampleLoop_best_eq (d : ℕ → ℕ → ℕ) (q : ℕ) :
    ∀ (n i best : ℕ), (sampleLoop d q i best n).1 = best ∨
      ∃ k, k < n ∧ (sampleLoop d q i best n).1 = d (i + k) q := by
  intro n
  induction n with
  | zero => intro i best; exact Or.inl rfl
  | succ n ih =>
    intro i best
    simp only [sampleLoop]
    rcases ih (i + 1) (min best (d i q)) with h | ⟨k, hk, he⟩
    · rcases le_total best (d i q) with hbd | hdb
      · exact Or.inl (h.trans (min_eq_left hbd))
      · exact Or.inr ⟨0, by omega, by rw [Nat.add_zero]; exact h.trans (min_eq_right hdb)⟩
    · exact Or.inr ⟨k + 1, by omega, by rw [show i + (k + 1) = i + 1 + k by omega]; exact he⟩

theorem getD_replicate_of_lt {α : Type} (x d : α) {n k : ℕ} (h : k < n) :
    (List.replicate n x).getD k d = x := by
  rw [List.getD_eq_getElem _ _ (by simpa using h)]
  simp

/-- `autoLoop_spec` specialized to the entry point of the auto-detect
phase (call number 0, quantity 25). -/
theorem autoDetect_spec (d : ℕ → ℕ → ℕ) :
    (autoDetect d).log.length ≠ 0 ∧
    (autoDetect d).log.getD 0 0 = 25 ∧
    (autoDetect d).quantity =
      (autoDetect d).log.getD ((autoDetect d).log.length - 1) 0 ∧
    (autoDetect d).best =
      d ((autoDetect d).log.length - 1) (autoDetect d).quantity ∧
    (∀ k, k + 1 < (autoDetect d).log.length →
      (autoDetect d).log.getD (k + 1) 0 =
        (autoDetect d).log.getD k 0 *
          scaleFactor (d k ((autoDetect d).log.getD k 0))) ∧
    (∀ k, k + 1 < (autoDetect d).log.length →
      d k ((autoDetect d).log.getD k 0) < 1000 ∧
        (autoDetect d).log.getD k 0 ≤ 1000000) ∧
    (1000 ≤ d ((autoDetect d).log.length - 1) (autoDetect d).quantity ∨
      1000000 < (autoDetect d).quantity) := by
  have h := autoLoop_spec d 0 25 (by norm_num)
  simpa [autoDetect, Nat.zero_add] using h

theorem autoDetect_length_le (d : ℕ → ℕ → ℕ) :
    (autoDetect d).log.length ≤ 17 := by
  have h := autoLoop_length_le d 16 0 25 (by norm_num) (by norm_num)
  simpa [autoDetect] using h

/-- C1: with `configured_quantity = 0`, for every backend duration
behaviour `d`, the auto-detect loop of `run_single_test` terminates
after finitely many calls (at most 17): the batch quantity starts at 25,
each retry multiplies it by `scaleFactor` of the observed duration
(10 below 100µs, 3 below 500µs, 2 otherwise) and hence never decreases,
all calls before the last fail the exit test, and the loop exits exactly
when a duration reaches 1000µs or the quantity just run exceeds
1,000,000; the quantity `run_single_test` then samples and returns is
the settled one. -/
theorem calibration_auto_detect_terminates (d : ℕ → ℕ → ℕ) :
    (autoDetect d).log.getD 0 0 = 25 ∧
    1 ≤ (autoDetect d).log.length ∧
    (autoDetect d).log.length ≤ 17 ∧
    (∀ k, k + 1 < (autoDetect d).log.length →
      (autoDetect d).log.getD (k + 1) 0 =
        (autoDetect d).log.getD k 0 * scaleFactor (d k ((autoDetect d).log.getD k 0))) ∧
    (∀ k, k + 1 < (autoDetect d).log.length →
      (autoDetect d).log.getD k 0 ≤ (autoDetect d).log.getD (k + 1) 0) ∧
    (∀ k, k + 1 < (autoDetect d).log.length →
      d k ((autoDetect d).log.getD k 0) < 1000 ∧ (autoDetect d).log.getD k 0 ≤ 1000000) ∧
    (1000 ≤ d ((autoDetect d).log.length - 1) (autoDetect d).quantity ∨
      1000000 < (autoDetect d).quantity) ∧
    (∀ min_runs, (run_single_test_instr d 0 min_runs).2.2 =
      (autoDetect d).log ++ List.replicate (max min_runs 1 - 1) (autoDetect d).quantity) ∧
    (∀ min_runs, (run_single_test d 0 min_runs).2 = (autoDetect d).quantity) := by
  obtain ⟨hlen, hhead, _hlast, _hbest, hstep, hnoexit, hexit⟩ := autoDetect_spec d
  have hbound := autoDetect_length_le d
  refine ⟨hhead, by omega, hbound, hstep, ?_, hnoexit, hexit, ?_, ?_⟩
  · intro k hk
    rw [hstep k hk]
    exact Nat.le_mul_of_pos_right _ (scaleFactorPos _)
  · intro min_runs
    simp [run_single_test_instr, sampleLoop_log]
  · intro min_runs
    simp [run_single_test, run_single_test_instr]

/-- C2: with `configured_quantity > 0` and `min_runs ≥ 1`,
`run_single_test` performs exactly `min_runs` calls to `backend.run`,
all at the configured quantity (no auto-detect phase), returns the
configured quantity unchanged, and returns the minimum of the observed
durations as the best duration. -/
theorem calibration_fixed_quantity (d : ℕ → ℕ → ℕ) (cq mr : ℕ)
    (hcq : 0 < cq) (hmr : 1 ≤ mr) (hd : ∀ j, d j cq ≤ u64Max) :
    (run_single_test_instr d cq mr).2.2 = List.replicate mr cq ∧
    (run_single_test_instr d cq mr).2.2.length = mr ∧
    run_single_test d cq mr = ((run_single_test_instr d cq mr).1, cq) ∧
    (∀ j, j < mr → (run_single_test_instr d cq mr).1 ≤ d j cq) ∧
    (∃ j, j < mr ∧ (run_single_test_instr d cq mr).1 = d j cq) := by
  have hne : ¬cq = 0 := by omega
  have hmax : max mr 1 = mr := max_eq_left hmr
  have hlog : (run_single_test_instr d cq mr).2.2 = List.replicate mr cq := by
    simp only [run_single_test_instr, if_neg hne]
    rw [sampleLoop_log, hmax]
  have hle : ∀ j, j < mr → (run_single_test_instr d cq mr).1 ≤ d j cq := by
    intro j hj
    simp only [run_single_test_instr, if_neg hne]
    have := sampleLoop_best_le d cq (max mr 1) 0 u64Max j (by omega)
    simpa using this
  refine ⟨hlog, by rw [hlog]; simp, ?_, hle, ?_⟩
  · simp only [run_single_test, run_single_test_instr, if_neg hne]
  · rcases sampleLoop_best_eq d cq (max mr 1) 0 u64Max with h | ⟨k, hk, he⟩
    · refine ⟨0, by omega, ?_⟩
      have h1 : (run_single_test_instr d cq mr).1 ≤ d 0 cq := hle 0 (by omega)
      have h2 : (run_single_test_instr d cq mr).1 = u64Max := by
        simp only [run_single_test_instr, if_neg hne]
        exact h
      have := hd 0
      omega
    · refine ⟨k, by omega, ?_⟩
      simp only [run_single_test_instr, if_neg hne]
      simpa using he

/-- C2 witness at a concrete backend, quantity and run count. -/
theorem calibration_fixed_quantity_witness :
    (0 < 7 ∧ 1 ≤ 3 ∧ ∀ j : ℕ, (fun _ _ => 42 : ℕ → ℕ → ℕ) j 7 ≤ u64Max) ∧
    ((run_single_test_instr (fun _ _ => 42) 7 3).2.2 = List.replicate 3 7 ∧
      (run_single_test_instr (fun _ _ => 42) 7 3).2.2.length = 3 ∧
      run_single_test (fun _ _ => 42) 7 3 = ((run_single_test_instr (fun _ _ => 42) 7 3).1, 7) ∧
      (∀ j, j < 3 → (run_single_test_instr (fun _ _ => 42) 7 3).1 ≤ (fun _ _ => 42 : ℕ → ℕ → ℕ) j 7) ∧
      (∃ j, j < 3 ∧ (run_single_test_instr (fun _ _ => 42) 7 3).1 = (fun _ _ => 42 : ℕ → ℕ → ℕ) j 7)) :=
  ⟨⟨by norm_num, by norm_num, fun j => by norm_num [u64Max]⟩,
    calibration_fixed_quantity (fun _ _ => 42) 7 3 (by norm_num) (by norm_num)
      (fun j => by norm_num [u64Max])⟩

/-- C10: for every `min_runs` (including 0), `run_single_test` calls
`backend.run` at least once, and the best duration it returns was
observed on one of its calls (at the quantity that call used), so the
`u64::MAX` initialization sentinel is never what is returned; the
`min_runs.max(1)` clamp of `BenchmarkConfig::from_args` is part of the
same guarantee. -/
theorem calibration_always_runs (d : ℕ → ℕ → ℕ) (cq mr : ℕ)
    (hd : ∀ j q, d j q ≤ u64Max) :
    1 ≤ fromArgsMinRuns mr ∧
    1 ≤ (run_single_test_instr d cq mr).2.2.length ∧
    ∃ j, j < (run_single_test_instr d cq mr).2.2.length ∧
      (run_single_test_instr d cq mr).1 = d j ((run_single_test_instr d cq mr).2.2.getD j 0) := by
  obtain ⟨hlen, _hhead, hlast, hbest, _hstep, _hnoexit, _hexit⟩ := autoDetect_spec d
  by_cases hz : cq = 0
  · subst hz
    have hins : run_single_test_instr d 0 mr =
        ((sampleLoop d (autoDetect d).quantity (autoDetect d).log.length
            (autoDetect d).best (max mr 1 - 1)).1,
          (autoDetect d).quantity,
          (autoDetect d).log ++
            List.replicate (max mr 1 - 1) (autoDetect d).quantity) := by
      simp [run_single_test_instr, sampleLoop_log]
    rw [hins]
    refine ⟨le_max_right _ _, by simp only [List.length_append]; omega, ?_⟩
    rcases sampleLoop_best_eq d (autoDetect d).quantity (max mr 1 - 1)
      (autoDetect d).log.length (autoDetect d).best with h | ⟨k, hk, he⟩
    · -- the sampling phase never improved on the auto-detect duration
      refine ⟨(autoDetect d).log.length - 1, ?_, ?_⟩
      · simp only [List.length_append]
        omega
      · rw [List.getD_append _ _ _ _ (by omega)]
        rw [h, hbest, ← hlast]
    · refine ⟨(autoDetect d).log.length + k, ?_, ?_⟩
      · simp only [List.length_append, List.length_replicate]
        omega
      · rw [List.getD_append_right _ _ _ _ (by omega), Nat.add_sub_cancel_left,
          getD_replicate_of_lt _ _ hk]
        exact he
  · have hins : run_single_test_instr d cq mr =
        ((sampleLoop d cq 0 u64Max (max mr 1)).1, cq,
          List.replicate (max mr 1) cq) := by
      simp [run_single_test_instr, hz, sampleLoop_log]
    rw [hins]
    refine ⟨le_max_right _ _, by simp only [List.length_replicate]; omega, ?_⟩
    rcases sampleLoop_best_eq d cq (max mr 1) 0 u64Max with h | ⟨k, hk, he⟩
    · refine ⟨0, ?_, ?_⟩
      · rw [List.length_replicate]; omega
      · have h1 : (sampleLoop d cq 0 u64Max (max mr 1)).1 ≤ d 0 cq :=
          sampleLoop_best_le d cq (max mr 1) 0 u64Max 0 (by omega)
        have h2 := hd 0 cq
        rw [getD_replicate_of_lt _ _ (by omega : 0 < max mr 1)]
        omega
    · refine ⟨k, ?_, ?_⟩
      · rw [List.length_replicate]; omega
      · rw [getD_replicate_of_lt _ _ hk]
        simpa using he

/-- C10 witness: even `min_runs = 0` performs one run. -/
theorem calibration_always_runs_witness :
    (∀ j q : ℕ, (fun _ _ => 9 : ℕ → ℕ → ℕ) j q ≤ u64Max) ∧
    (1 ≤ fromArgsMinRuns 0 ∧
      1 ≤ (run_single_test_instr (fun _ _ => 9) 3 0).2.2.length ∧
      ∃ j, j < (run_single_test_instr (fun _ _ => 9) 3 0).2.2.length ∧
        (run_single_test_instr (fun _ _ => 9) 3 0).1 =
          (fun _ _ => 9 : ℕ → ℕ → ℕ) j ((run_single_test_instr (fun _ _ => 9) 3 0).2.2.getD j 0)) :=
  ⟨fun j q => by norm_num [u64Max],
    calibration_always_runs (fun _ _ => 9) 3 0 (fun j q => by norm_num [u64Max])⟩

theorem rngStep_seed (fStep : ℚ → ℚ → ℕ → ℚ × ℕ) (iStep : ℤ → ℤ → ℕ → ℤ × ℕ)
    (u32Step : ℕ → ℕ × ℕ) (c : RngCall) (g : BenchRandom) :
    (rngStep fStep iStep u32Step c g).2.seed = g.seed := by
  cases c <;> rfl

theorem runCalls_seed (fStep : ℚ → ℚ → ℕ → ℚ × ℕ) (iStep : ℤ → ℤ → ℕ → ℤ × ℕ)
    (u32Step : ℕ → ℕ × ℕ) :
    ∀ (calls : List RngCall) (g : BenchRandom),
      (runCalls fStep iStep u32Step calls g).2.seed = g.seed := by
  intro calls
  induction calls with
  | nil => intro g; rfl
  | cons c rest ih =>
    intro g
    simp only [runCalls]
    rw [ih]
    exact rngStep_seed fStep iStep u32Step c g

/-- C3: for every seed and every deterministic PRNG implementation,
after an arbitrary interleaving `prior` of `next_f64` / `next_i32` /
`next_bool` / `next_color` calls, `rewind()` restores exactly the state
produced by construction with the same seed — so replaying any call
interleaving `calls` yields draw-for-draw the same values the generator
produced for that interleaving right after construction, and two
generators constructed independently from the same seed (being the same
state) produce identical output sequences. -/
theorem bench_random_rewind_replays (sfu : ℕ → ℕ)
    (fStep : ℚ → ℚ → ℕ → ℚ × ℕ) (iStep : ℤ → ℤ → ℕ → ℤ × ℕ)
    (u32Step : ℕ → ℕ × ℕ) (seed : ℕ) (prior calls : List RngCall) :
    ((runCalls fStep iStep u32Step prior (BenchRandom.new sfu seed)).2.rewind sfu) =
      BenchRandom.new sfu seed ∧
    (runCalls fStep iStep u32Step calls
        ((runCalls fStep iStep u32Step prior (BenchRandom.new sfu seed)).2.rewind sfu)).1 =
      (runCalls fStep iStep u32Step calls (BenchRandom.new sfu seed)).1 := by
  have hseed :
      ((runCalls fStep iStep u32Step prior (BenchRandom.new sfu seed)).2.rewind sfu) =
        BenchRandom.new sfu seed := by
    unfold BenchRandom.rewind BenchRandom.new
    rw [runCalls_seed]
  exact ⟨hseed, by rw [hseed]⟩

theorem ensure_context_eq (b : VelloBackend) (sw sh : ℕ) :
    b.ensure_context sw sh =
      { b with width := sw % 65536, height := sh % 65536 } := by
  unfold VelloBackend.ensure_context
  dsimp only
  split
  · rfl
  · rename_i h
    push_neg at h
    cases b
    simp_all

theorem reset_state_seeds (sfu : ℕ → ℕ) (b : VelloBackend) :
    (b.reset_state sfu).seeds = b.seeds := rfl

theorem prepare_context_seeds (b : VelloBackend) (params : BenchParams) :
    (b.prepare_context params).seeds = b.seeds := by
  unfold VelloBackend.prepare_context
  rw [ensure_context_eq]
  rfl

theorem renderLoop_seeds (body : VelloBackend → VelloBackend × List DrawEvent)
    (hbody : ∀ s, ((body s).1).seeds = s.seeds) :
    ∀ (n : ℕ) (b : VelloBackend), ((renderLoop body n b).1).seeds = b.seeds := by
  intro n
  induction n with
  | zero => intro b; rfl
  | succ n ih =>
    intro b
    simp only [renderLoop]
    rw [ih, hbody]

theorem polygonPoints_seed (fStep : ℚ → ℚ → ℕ → ℚ × ℕ) (bx bz sz : ℚ) :
    ∀ (n : ℕ) (g : BenchRandom),
      ((polygonPoints fStep bx bz sz n g).1).seed = g.seed := by
  intro n
  induction n with
  | zero => intro g; rfl
  | succ n ih =>
    intro g
    simp only [polygonPoints]
    rw [ih]
    rfl

theorem render_rect_aligned_seeds (iStep : ℤ → ℤ → ℕ → ℤ × ℕ)
    (u32Step : ℕ → ℕ × ℕ) (params : BenchParams) (b : VelloBackend) :
    ((b.render_rect_aligned iStep u32Step params).1).seeds = b.seeds := by
  unfold VelloBackend.render_rect_aligned
  exact renderLoop_seeds _ (fun s => rfl) _ _

theorem render_rect_floating_seeds (fStep : ℚ → ℚ → ℕ → ℚ × ℕ)
    (u32Step : ℕ → ℕ × ℕ) (params : BenchParams) (b : VelloBackend) :
    ((b.render_rect_floating fStep u32Step params).1).seeds = b.seeds := by
  unfold VelloBackend.render_rect_floating
  exact renderLoop_seeds _ (fun s => rfl) _ _

theorem render_rect_rotated_seeds (fStep : ℚ → ℚ → ℕ → ℚ × ℕ)
    (u32Step : ℕ → ℕ × ℕ) (params : BenchParams) (b : VelloBackend) :
    ((b.render_rect_rotated fStep u32Step params).1).seeds = b.seeds := by
  unfold VelloBackend.render_rect_rotated
  exact renderLoop_seeds _ (fun s => rfl) _ _

theorem render_round_seeds (fStep : ℚ → ℚ → ℕ → ℚ × ℕ)
    (u32Step : ℕ → ℕ × ℕ) (params : BenchParams) (rot : Bool) (b : VelloBackend) :
    ((b.render_round fStep u32Step params rot).1).seeds = b.seeds := by
  unfold VelloBackend.render_round
  exact renderLoop_seeds _ (fun s => rfl) _ _

theorem render_polygon_seeds (fStep : ℚ → ℚ → ℕ → ℚ × ℕ)
    (u32Step : ℕ → ℕ × ℕ) (params : BenchParams) (complexity : ℕ)
    (b : VelloBackend) :
    ((b.render_polygon fStep u32Step params complexity).1).seeds = b.seeds := by
  unfold VelloBackend.render_polygon
  refine renderLoop_seeds _ (fun s => ?_) _ _
  simp only [VelloBackend.seeds, VelloBackend.random_color, BenchRandom.next_color]
  rw [polygonPoints_seed]
  simp [BenchRandom.next_f64]

theorem render_shape_seeds (fStep : ℚ → ℚ → ℕ → ℚ × ℕ)
    (u32Step : ℕ → ℕ × ℕ) (params : BenchParams) (kind : ShapeKind)
    (b : VelloBackend) :
    ((b.render_shape fStep u32Step params kind).1).seeds = b.seeds := by
  unfold VelloBackend.render_shape
  exact renderLoop_seeds _ (fun s => rfl) _ _

theorem run_seeds (sfu : ℕ → ℕ) (fStep : ℚ → ℚ → ℕ → ℚ × ℕ)
    (iStep : ℤ → ℤ → ℕ → ℤ × ℕ) (u32Step : ℕ → ℕ × ℕ)
    (params : BenchParams) (b : VelloBackend) :
    ((VelloBackend.run sfu fStep iStep u32Step params b).1).seeds = b.seeds := by
  unfold VelloBackend.run
  cases htest : params.test <;>
    simp only [htest] <;>
    simp [render_rect_aligned_seeds, render_rect_floating_seeds,
      render_rect_rotated_seeds, render_round_seeds, render_polygon_seeds,
      render_shape_seeds, prepare_context_seeds, reset_state_seeds]

theorem runMany_seeds (sfu : ℕ → ℕ) (fStep : ℚ → ℚ → ℕ → ℚ × ℕ)
    (iStep : ℤ → ℤ → ℕ → ℤ × ℕ) (u32Step : ℕ → ℕ × ℕ) :
    ∀ (ps : List BenchParams) (b : VelloBackend),
      (runMany sfu fStep iStep u32Step ps b).seeds = b.seeds := by
  intro ps
  induction ps with
  | nil => intro b; rfl
  | cons p rest ih =>
    intro b
    simp only [runMany]
    rw [ih, run_seeds]

/-- Two backends with the same stored stream seeds behave identically
under `run`: `reset_state` re-seeds all three streams and
`prepare_context` normalizes the canvas dimensions to the params'
screen size, so the whole pre-render state agrees. -/
theorem run_eq_of_seeds (sfu : ℕ → ℕ) (fStep : ℚ → ℚ → ℕ → ℚ × ℕ)
    (iStep : ℤ → ℤ → ℕ → ℤ × ℕ) (u32Step : ℕ → ℕ × ℕ)
    (params : BenchParams) (b b' : VelloBackend) (h : b.seeds = b'.seeds) :
    VelloBackend.run sfu fStep iStep u32Step params b =
      VelloBackend.run sfu fStep iStep u32Step params b' := by
  have hprep : (b.reset_state sfu).prepare_context params =
      (b'.reset_state sfu).prepare_context params := by
    unfold VelloBackend.prepare_context VelloBackend.reset_state BenchRandom.rewind
    rw [ensure_context_eq, ensure_context_eq]
    simp only [VelloBackend.seeds, Prod.mk.injEq] at h
    obtain ⟨h1, h2, h3⟩ := h
    cases b
    cases b'
    simp_all
  unfold VelloBackend.run
  dsimp only
  rw [hprep]

/-- C4: two `VelloBackend::run` invocations with equal `BenchParams`
draw identical value sequences from the coordinate, color and auxiliary
streams, regardless of how many `run` calls preceded each invocation
(for every deterministic PRNG implementation), because `run` rewinds
all three seeded streams before rendering. -/
theorem vello_run_trace_reproducible (sfu : ℕ → ℕ)
    (fStep : ℚ → ℚ → ℕ → ℚ × ℕ) (iStep : ℤ → ℤ → ℕ → ℤ × ℕ)
    (u32Step : ℕ → ℕ × ℕ) (w h t : ℕ) (prior1 prior2 : List BenchParams)
    (params : BenchParams) :
    (VelloBackend.run sfu fStep iStep u32Step params
        (runMany sfu fStep iStep u32Step prior1 (VelloBackend.new sfu w h t))).2 =
      (VelloBackend.run sfu fStep iStep u32Step params
        (runMany sfu fStep iStep u32Step prior2 (VelloBackend.new sfu w h t))).2 := by
  have h1 := runMany_seeds sfu fStep iStep u32Step prior1 (VelloBackend.new sfu w h t)
  have h2 := runMany_seeds sfu fStep iStep u32Step prior2 (VelloBackend.new sfu w h t)
  rw [run_eq_of_seeds sfu fStep iStep u32Step params _ _ (h1.trans h2.symm)]

theorem push_error_absorbed (s : BaselineSum) (e : String)
    (h : s.error = some e) (x : Except String ℚ) : s.push x = s := by
  cases x <;> simp [BaselineSum.push, h]

theorem foldl_push_error (e : String) :
    ∀ (l : List (Except String ℚ)) (s : BaselineSum), s.error = some e →
      l.foldl BaselineSum.push s = s := by
  intro l
  induction l with
  | nil => intro s _; rfl
  | cons x rest ih =>
    intro s h
    simp only [List.foldl_cons]
    rw [push_error_absorbed s e h x, ih s h]

theorem foldl_push_error_none :
    ∀ (l : List (Except String ℚ)) (s : BaselineSum), s.error = none →
      (l.foldl BaselineSum.push s).error = firstError l := by
  intro l
  induction l with
  | nil => intro s h; simpa [firstError] using h
  | cons x rest ih =>
    intro s h
    cases x with
    | ok v =>
      simp only [List.foldl_cons]
      rw [ih _ (by simp [BaselineSum.push, h])]
      simp [firstError, List.findSome?]
    | error m =>
      simp only [List.foldl_cons]
      have hp : s.push (.error m) = { s with error := some m } := by
        simp [BaselineSum.push, h]
      rw [hp, foldl_push_error m rest _ rfl]
      simp [firstError, List.findSome?]

theorem foldl_push_ok_list :
    ∀ (vs : List ℚ) (s : BaselineSum), s.error = none →
      List.foldl BaselineSum.push s (vs.map Except.ok) =
        ⟨s.total + vs.sum, s.has_value || !vs.isEmpty, none⟩ := by
  intro vs
  induction vs with
  | nil =>
    intro s h
    cases s
    simp_all
  | cons v rest ih =>
    intro s h
    simp only [List.map_cons, List.foldl_cons]
    have hp : s.push (.ok v) = ⟨s.total + v, true, none⟩ := by
      cases s
      simp_all [BaselineSum.push]
    rw [hp, ih _ rfl]
    simp [add_assoc]

/-- C5: errors pushed into `BaselineSum` are sticky — once the first
error is recorded every later push (success or error) is ignored and
`finish` returns that first error; with only successes pushed (at least
one), `finish` returns exactly their sum. -/
theorem baseline_sum_sticky (l l' : List (Except String ℚ)) (vs : List ℚ) :
    (∀ e, firstError l = some e →
      (pushAll (l ++ l')).finish = .error e ∧ (pushAll l).finish = .error e) ∧
    (vs ≠ [] → (pushAll (vs.map Except.ok)).finish = .ok vs.sum) := by
  constructor
  · intro e he
    have herr : (pushAll l).error = some e := by
      unfold pushAll
      rw [foldl_push_error_none l BaselineSum.init rfl]
      exact he
    have habs : pushAll (l ++ l') = pushAll l := by
      unfold pushAll
      rw [List.foldl_append]
      exact foldl_push_error e l' _ herr
    refine ⟨?_, ?_⟩
    · rw [habs]
      simp [BaselineSum.finish, herr]
    · simp [BaselineSum.finish, herr]
  · intro hvs
    unfold pushAll
    rw [foldl_push_ok_list vs BaselineSum.init rfl]
    simp [BaselineSum.finish, BaselineSum.init, hvs]

/-- C5 witness: an error followed by a success stays the error, also
with further pushes appended; two successes sum exactly. -/
theorem baseline_sum_sticky_witness :
    (firstError [Except.error "oops", Except.ok (2 : ℚ)] = some "oops" ∧
      (pushAll ([Except.error "oops", Except.ok (2 : ℚ)] ++ [Except.ok 5])).finish =
        .error "oops" ∧
      (pushAll [Except.error "oops", Except.ok (2 : ℚ)]).finish = .error "oops") ∧
    (([(1 : ℚ), 2] : List ℚ) ≠ [] ∧
      (pushAll (([(1 : ℚ), 2]).map Except.ok)).finish = .ok (([(1 : ℚ), 2]).sum)) := by
  have h := baseline_sum_sticky [Except.error "oops", Except.ok (2 : ℚ)]
    [Except.ok 5] [(1 : ℚ), 2]
  have he : firstError [Except.error "oops", Except.ok (2 : ℚ)] = some "oops" := by
    simp [firstError, List.findSome?]
  have hne : ([(1 : ℚ), 2] : List ℚ) ≠ [] := by simp
  exact ⟨⟨he, (h.1 "oops" he).1, (h.1 "oops" he).2⟩, hne, h.2 hne⟩

/-- C6 counterexample: the claim renders every cell with a nonzero
baseline as a classified numeric delta, but the code annotates every
baseline with `|b| ≤ f64::EPSILON` as `(baseline 0)` — at the nonzero
baseline `b = 2⁻⁵²` no delta is rendered (the claim would classify the
huge positive delta as an improvement). -/
theorem format_cell_nonzero_annotated :
    ((1 / 2 ^ 52 : ℚ) ≠ 0) ∧
    (format_cell ⟨1, "1.000", some (.ok (1 / 2 ^ 52))⟩).2 = CellMark.baselineZero ∧
    (format_cell ⟨1, "1.000", some (.ok (1 / 2 ^ 52))⟩).2 ≠
      CellMark.delta ((1 - 1 / 2 ^ 52) / (1 / 2 ^ 52) * 100) DeltaClass.improvement := by
  have hz : (format_cell ⟨1, "1.000", some (.ok (1 / 2 ^ 52))⟩).2 =
      CellMark.baselineZero := by
    unfold format_cell
    simp only
    rw [if_pos (show |(1 / 2 ^ 52 : ℚ)| ≤ EPSILON by
      rw [abs_of_pos (by norm_num)]; norm_num [EPSILON])]
  exact ⟨by norm_num, hz, by rw [hz]; simp⟩

/-- C6 (amended): a baseline with `|b| ≤ f64::EPSILON = 2⁻⁵²` — in
particular `b = 0` — is rendered as the `(baseline 0)` annotation with
no numeric delta; for `|b| > EPSILON` the delta is `(c-b)/b*100`,
classified improvement when ≥ +3.0, regression when ≤ −3.0 and noise
strictly between (both boundaries inclusive); a missing entry is an
error annotation and the base string is always the formatted value
unchanged. -/
theorem format_cell_classification (c b : ℚ) (fstr : String) :
    (format_cell ⟨c, fstr, none⟩ = (fstr, .plain)) ∧
    (∀ msg, format_cell ⟨c, fstr, some (.error msg)⟩ = (fstr, .missing msg)) ∧
    (|b| ≤ EPSILON → format_cell ⟨c, fstr, some (.ok b)⟩ = (fstr, .baselineZero)) ∧
    (EPSILON < |b| → 3 ≤ (c - b) / b * 100 →
      format_cell ⟨c, fstr, some (.ok b)⟩ =
        (fstr, .delta ((c - b) / b * 100) .improvement)) ∧
    (EPSILON < |b| → (c - b) / b * 100 ≤ -3 →
      format_cell ⟨c, fstr, some (.ok b)⟩ =
        (fstr, .delta ((c - b) / b * 100) .regression)) ∧
    (EPSILON < |b| → -3 < (c - b) / b * 100 → (c - b) / b * 100 < 3 →
      format_cell ⟨c, fstr, some (.ok b)⟩ =
        (fstr, .delta ((c - b) / b * 100) .noise)) := by
  refine ⟨rfl, fun msg => rfl, ?_, ?_, ?_, ?_⟩
  · intro h
    unfold format_cell
    simp only
    rw [if_pos h]
  · intro hEps h3
    unfold format_cell
    simp only
    rw [if_neg (not_le.mpr hEps), if_pos h3]
  · intro hEps hm3
    unfold format_cell
    simp only
    rw [if_neg (not_le.mpr hEps), if_neg (by intro h; linarith), if_pos hm3]
  · intro hEps hgt hlt
    unfold format_cell
    simp only
    rw [if_neg (not_le.mpr hEps), if_neg (by intro h; linarith),
      if_neg (by intro h; linarith)]

/-- C6 witness at the specified boundary examples: 103 vs 100 is
exactly +3.0% and an improvement, 97 vs 100 is exactly −3.0% and a
regression, 100 vs 100 is noise, and a zero baseline is annotated. -/
theorem format_cell_classification_witness :
    (EPSILON < |(100 : ℚ)| ∧ 3 ≤ ((103 : ℚ) - 100) / 100 * 100 ∧
      format_cell ⟨103, "103", some (.ok 100)⟩ =
        ("103", .delta (((103 : ℚ) - 100) / 100 * 100) .improvement)) ∧
    (((97 : ℚ) - 100) / 100 * 100 ≤ -3 ∧
      format_cell ⟨97, "97.0", some (.ok 100)⟩ =
        ("97.0", .delta (((97 : ℚ) - 100) / 100 * 100) .regression)) ∧
    (format_cell ⟨100, "100", some (.ok 100)⟩ =
      ("100", .delta (((100 : ℚ) - 100) / 100 * 100) .noise)) ∧
    (|(0 : ℚ)| ≤ EPSILON ∧
      format_cell ⟨103, "103", some (.ok 0)⟩ = ("103", .baselineZero)) := by
  have hEps : EPSILON < |(100 : ℚ)| := by
    rw [abs_of_pos (by norm_num : (0 : ℚ) < 100)]
    norm_num [EPSILON]
  have h0 : |(0 : ℚ)| ≤ EPSILON := by norm_num [EPSILON]
  refine ⟨⟨hEps, by norm_num, ?_⟩, ⟨by norm_num, ?_⟩, ?_, h0, ?_⟩
  · exact (format_cell_classification 103 100 "103").2.2.2.1 hEps (by norm_num)
  · exact (format_cell_classification 97 100 "97.0").2.2.2.2.1 hEps (by norm_num)
  · exact (format_cell_classification 100 100 "100").2.2.2.2.2 hEps
      (by norm_num) (by norm_num)
  · exact (format_cell_classification 103 0 "103").2.2.1 h0

theorem digitChar_ne_dot (d : ℕ) : digitChar d ≠ '.' := by
  unfold digitChar
  split <;> decide

theorem natDigitsLE_ne_dot :
    ∀ (fuel n : ℕ), ∀ c ∈ natDigitsLE fuel n, c ≠ '.' := by
  intro fuel
  induction fuel with
  | zero => intro n c hc; simp [natDigitsLE] at hc
  | succ fuel ih =>
    intro n c hc
    unfold natDigitsLE at hc
    split at hc
    · rw [List.mem_singleton] at hc
      exact hc ▸ digitChar_ne_dot n
    · rcases List.mem_cons.mp hc with h | h
      · exact h ▸ digitChar_ne_dot (n % 10)
      · exact ih (n / 10) c h

theorem natRepr_ne_dot (n : ℕ) : ∀ c ∈ natRepr n, c ≠ '.' := by
  intro c hc
  unfold natRepr at hc
  exact natDigitsLE_ne_dot (n + 1) n c (List.mem_reverse.mp hc)

theorem natDigitsPadded_ne_dot :
    ∀ (n m : ℕ), ∀ c ∈ natDigitsPadded m n, c ≠ '.' := by
  intro n
  induction n with
  | zero => intro m c hc; simp [natDigitsPadded] at hc
  | succ n ih =>
    intro m c hc
    unfold natDigitsPadded at hc
    rcases List.mem_append.mp hc with h | h
    · exact ih (m / 10) c h
    · rw [List.mem_singleton] at h
      exact h ▸ digitChar_ne_dot (m % 10)

theorem natDigitsPadded_length : ∀ (n m : ℕ), (natDigitsPadded m n).length = n := by
  intro n
  induction n with
  | zero => intro m; rfl
  | succ n ih => intro m; simp [natDigitsPadded, ih]

theorem takeWhile_ne_dot (l2 l1 : List Char) (h2 : ∀ c ∈ l2, c ≠ '.') :
    (l2 ++ '.' :: l1).takeWhile (fun c => c != '.') = l2 := by
  induction l2 with
  | nil => simp [List.takeWhile]
  | cons c cs ih =>
    have hc : (c != '.') = true := by
      simpa [bne_iff_ne] using h2 c (List.mem_cons_self c cs)
    simp only [List.cons_append, List.takeWhile_cons, hc, if_true]
    rw [ih (fun x hx => h2 x (List.mem_cons_of_mem _ hx))]

theorem fracDigits_of_no_dot (l : List Char) (h : ∀ c ∈ l, c ≠ '.') :
    fracDigits (String.mk l) = 0 := by
  unfold fracDigits
  rw [if_neg]
  intro hmem
  exact h _ hmem rfl

theorem fracDigits_append_frac (l1 l2 : List Char) (h2 : ∀ c ∈ l2, c ≠ '.') :
    fracDigits (String.mk (l1 ++ '.' :: l2)) = l2.length := by
  unfold fracDigits
  rw [if_pos (by simp)]
  show ((l1 ++ '.' :: l2).reverse.takeWhile _).length = _
  rw [List.reverse_append, List.reverse_cons, List.append_assoc,
    List.singleton_append,
    takeWhile_ne_dot l2.reverse l1.reverse
      (fun c hc => h2 c (List.mem_reverse.mp hc))]
  simp

theorem fracDigits_fmtDecimals (v : ℚ) (n : ℕ) :
    fracDigits (fmtDecimals v n) = if n = 0 then 0 else n := by
  unfold fmtDecimals
  dsimp only
  by_cases h : n = 0
  · rw [if_pos h, if_pos h]
    exact fracDigits_of_no_dot _ (natRepr_ne_dot _)
  · rw [if_neg h, if_neg h]
    rw [fracDigits_append_frac _ _ (natDigitsPadded_ne_dot _ _)]
    exact natDigitsPadded_length _ _

/-- Evaluation helper: the fixed-precision renderer at a computed
rounded value. -/
theorem fmtDecimals_eval (value : ℚ) (n m : ℕ)
    (h : ⌊value * 10 ^ n + 1 / 2⌋ = (m : ℤ)) :
    fmtDecimals value n =
      if n = 0 then String.mk (natRepr m)
      else String.mk (natRepr (m / 10 ^ n) ++ '.' :: natDigitsPadded (m % 10 ^ n) n) := by
  unfold fmtDecimals
  rw [h]
  simp

/-- C8 counterexample: the claim's buckets format 0.1 with 3 decimals
(0.1 is below 1 but not below 0.1), yet the source's first comparison
is inclusive (`value <= 0.1`), so 0.1 is formatted with 4 decimals. -/
theorem format_cpms_boundary_counterexample :
    format_cpms (1 / 10) = "0.1000" ∧
    fracDigits (format_cpms (1 / 10)) = 4 ∧
    format_cpms (1 / 10) ≠ "0.100" := by
  have hs : format_cpms (1 / 10) = "0.1000" := by
    unfold format_cpms
    rw [if_pos (by norm_num : (1 / 10 : ℚ) ≤ 1 / 10)]
    rw [fmtDecimals_eval _ _ 1000 (by rw [Int.floor_eq_iff]; norm_num)]
    decide
  refine ⟨hs, by rw [hs]; decide, by rw [hs]; decide⟩

/-- C8 (amended): `format_cpms` uses 4 decimals for values at or below
0.1, 3 decimals above 0.1 and at or below 1, 2 decimals below 10, 1
decimal below 100 and 0 decimals at or above 100 (the first two bucket
boundaries are inclusive); in particular 0.05 renders as "0.0500", 0.5
as "0.500", 5 as "5.00", 50 as "50.0" and 500 as "500". -/
theorem format_cpms_precision (v : ℚ) :
    (v ≤ 1 / 10 → fracDigits (format_cpms v) = 4) ∧
    (1 / 10 < v → v ≤ 1 → fracDigits (format_cpms v) = 3) ∧
    (1 < v → v < 10 → fracDigits (format_cpms v) = 2) ∧
    (10 ≤ v → v < 100 → fracDigits (format_cpms v) = 1) ∧
    (100 ≤ v → fracDigits (format_cpms v) = 0) ∧
    format_cpms (1 / 20) = "0.0500" ∧ format_cpms (1 / 2) = "0.500" ∧
    format_cpms 5 = "5.00" ∧ format_cpms 50 = "50.0" ∧
    format_cpms 500 = "500" := by
  refine ⟨?_, ?_, ?_, ?_, ?_, ?_, ?_, ?_, ?_, ?_⟩
  · intro h
    unfold format_cpms
    rw [if_pos h, fracDigits_fmtDecimals]
    rfl
  · intro h1 h2
    unfold format_cpms
    rw [if_neg (not_le.mpr h1), if_pos h2, fracDigits_fmtDecimals]
    rfl
  · intro h1 h2
    unfold format_cpms
    rw [if_neg (by intro h; linarith), if_neg (not_le.mpr h1), if_pos h2,
      fracDigits_fmtDecimals]
    rfl
  · intro h1 h2
    unfold format_cpms
    rw [if_neg (by intro h; linarith), if_neg (by intro h; linarith),
      if_neg (by intro h; linarith), if_pos h2, fracDigits_fmtDecimals]
    rfl
  · intro h1
    unfold format_cpms
    rw [if_neg (by intro h; linarith), if_neg (by intro h; linarith),
      if_neg (by intro h; linarith), if_neg (not_lt.mpr h1),
      fracDigits_fmtDecimals]
    rfl
  · unfold format_cpms
    rw [if_pos (by norm_num : (1 / 20 : ℚ) ≤ 1 / 10)]
    rw [fmtDecimals_eval _ _ 500 (by rw [Int.floor_eq_iff]; norm_num)]
    decide
  · unfold format_cpms
    rw [if_neg (by norm_num : ¬(1 / 2 : ℚ) ≤ 1 / 10),
      if_pos (by norm_num : (1 / 2 : ℚ) ≤ 1)]
    rw [fmtDecimals_eval _ _ 500 (by rw [Int.floor_eq_iff]; norm_num)]
    decide
  · unfold format_cpms
    rw [if_neg (by norm_num : ¬(5 : ℚ) ≤ 1 / 10),
      if_neg (by norm_num : ¬(5 : ℚ) ≤ 1),
      if_pos (by norm_num : (5 : ℚ) < 10)]
    rw [fmtDecimals_eval _ _ 500 (by rw [Int.floor_eq_iff]; norm_num)]
    decide
  · unfold format_cpms
    rw [if_neg (by norm_num : ¬(50 : ℚ) ≤ 1 / 10),
      if_neg (by norm_num : ¬(50 : ℚ) ≤ 1),
      if_neg (by norm_num : ¬(50 : ℚ) < 10),
      if_pos (by norm_num : (50 : ℚ) < 100)]
    rw [fmtDecimals_eval _ _ 500 (by rw [Int.floor_eq_iff]; norm_num)]
    decide
  · unfold format_cpms
    rw [if_neg (by norm_num : ¬(500 : ℚ) ≤ 1 / 10),
      if_neg (by norm_num : ¬(500 : ℚ) ≤ 1),
      if_neg (by norm_num : ¬(500 : ℚ) < 10),
      if_neg (by norm_num : ¬(500 : ℚ) < 100)]
    rw [fmtDecimals_eval _ _ 500 (by rw [Int.floor_eq_iff]; norm_num)]
    decide

/-- C8 witness: one value in each precision bucket. -/
theorem format_cpms_precision_witness :
    ((1 / 20 : ℚ) ≤ 1 / 10 ∧ fracDigits (format_cpms (1 / 20)) = 4) ∧
    ((1 / 10 : ℚ) < 1 / 2 ∧ (1 / 2 : ℚ) ≤ 1 ∧
      fracDigits (format_cpms (1 / 2)) = 3) ∧
    ((1 : ℚ) < 5 ∧ (5 : ℚ) < 10 ∧ fracDigits (format_cpms 5) = 2) ∧
    ((10 : ℚ) ≤ 50 ∧ (50 : ℚ) < 100 ∧ fracDigits (format_cpms 50) = 1) ∧
    ((100 : ℚ) ≤ 500 ∧ fracDigits (format_cpms 500) = 0) := by
  refine ⟨⟨by norm_num, (format_cpms_precision (1 / 20)).1 (by norm_num)⟩,
    ⟨by norm_num, by norm_num,
      (format_cpms_precision (1 / 2)).2.1 (by norm_num) (by norm_num)⟩,
    ⟨by norm_num, by norm_num,
      (format_cpms_precision 5).2.2.1 (by norm_num) (by norm_num)⟩,
    ⟨by norm_num, by norm_num,
      (format_cpms_precision 50).2.2.2.1 (by norm_num) (by norm_num)⟩,
    ⟨by norm_num, (format_cpms_precision 500).2.2.2.2.1 (by norm_num)⟩⟩

theorem run_backend_core_spec (meas : TestKind → ℕ → ℕ × ℕ)
    (bl : Option Baseline) (bname : String) (sizes : List ℕ) :
    ∀ tests : List TestKind,
      (run_backend_core meas bl bname sizes tests).1 =
        tests.map (fun t =>
          (t.name, (testCells meas bl bname t sizes).map format_cell)) ∧
      (run_backend_core meas bl bname sizes tests).2 =
        tests.map (fun t =>
          (⟨t.name, DEFAULT_COMP_OP_NAME, SOLID_STYLE,
            sizes.map fun s =>
              format_cpms (cpms (meas t s).1 (meas t s).2)⟩ : JsonRecord)) := by
  intro tests
  induction tests with
  | nil => exact ⟨rfl, rfl⟩
  | cons t rest ih =>
    simp only [run_backend_core, List.map_cons]
    refine ⟨by rw [ih.1], ?_⟩
    rw [ih.2]
    simp [testCells, List.map_map]

/-- C7: a failed baseline load (absent, unreadable or unparseable
file) is propagated as the error of `BenchRunner::new`, before any
measurement; a missing entry in a loaded baseline only yields the
per-cell "missing baseline value" error from `lookup`; and neither the
measured throughput values nor the `rcpms` strings of the JSON records
depend on the baseline at all. -/
theorem baseline_error_handling :
    (∀ e : String, BenchRunner.new (some (.error e)) = .error e) ∧
    (∀ (pf : String → Option ℚ) (e : String),
      Baseline.load pf (.error e) = .error e) ∧
    (∀ (bl : Baseline) (backend test : String) (size : ℕ),
      bl.entries.find? (fun en => en.1 = (backend, test, size)) = none →
      bl.lookup backend test size = .error "missing baseline value") ∧
    (∀ (meas : TestKind → ℕ → ℕ × ℕ) (bname : String) (tests : List TestKind)
      (sizes : List ℕ) (bl1 bl2 : Option Baseline),
      (run_backend meas bl1 bname tests sizes).records =
        (run_backend meas bl2 bname tests sizes).records) ∧
    (∀ (meas : TestKind → ℕ → ℕ × ℕ) (bname : String) (t : TestKind)
      (sizes : List ℕ) (bl : Option Baseline),
      (testCells meas bl bname t sizes).map (fun c => (c.raw, c.formatted)) =
        (testCells meas none bname t sizes).map (fun c => (c.raw, c.formatted))) := by
  refine ⟨fun e => rfl, fun pf e => rfl, ?_, ?_, ?_⟩
  · intro bl backend test size h
    unfold Baseline.lookup
    rw [h]
  · intro meas bname tests sizes bl1 bl2
    show (run_backend_core meas bl1 bname sizes tests).2 =
      (run_backend_core meas bl2 bname sizes tests).2
    rw [(run_backend_core_spec meas bl1 bname sizes tests).2,
      (run_backend_core_spec meas bl2 bname sizes tests).2]
  · intro meas bname t sizes bl
    simp [testCells, List.map_map]

/-- C7 witness: an empty baseline index has no entry for any key, and
a failed load aborts `BenchRunner::new` with the load error. -/
theorem baseline_error_handling_witness :
    ((⟨[]⟩ : Baseline).entries.find? (fun en => en.1 = ("Vello CPU ST", "FillRectA", 8)) =
      none) ∧
    (⟨[]⟩ : Baseline).lookup "Vello CPU ST" "FillRectA" 8 =
      .error "missing baseline value" ∧
    BenchRunner.new (some (.error "parse baseline results.json")) =
      .error "parse baseline results.json" :=
  ⟨rfl,
    baseline_error_handling.2.2.1 ⟨[]⟩ "Vello CPU ST" "FillRectA" 8 rfl,
    baseline_error_handling.1 "parse baseline results.json"⟩

/-- C9: `run_backend` emits exactly one table row and one `JsonRecord`
per selected test, in selection order, each row and record carrying one
entry per ladder size in ladder order; with no filter the selection is
the default catalog in catalog order, and the ladder is strictly
ascending. -/
theorem run_backend_emission_order (meas : TestKind → ℕ → ℕ × ℕ)
    (bl : Option Baseline) (bname : String) (tests : List TestKind)
    (sizes : List ℕ) :
    (run_backend meas bl bname tests sizes).rows =
      tests.map (fun t =>
        (t.name, (testCells meas bl bname t sizes).map format_cell)) ∧
    (run_backend meas bl bname tests sizes).records =
      tests.map (fun t =>
        (⟨t.name, DEFAULT_COMP_OP_NAME, SOLID_STYLE,
          sizes.map fun s =>
            format_cpms (cpms (meas t s).1 (meas t s).2)⟩ : JsonRecord)) ∧
    (run_backend meas bl bname tests sizes).rows.length = tests.length ∧
    (run_backend meas bl bname tests sizes).records.length = tests.length ∧
    (∀ t, (testCells meas bl bname t sizes).length = sizes.length) ∧
    parse_toggle_list none ([] : List (String × TestKind)) TestKind.ALL =
      .ok TestKind.ALL ∧
    List.Chain' (· < ·) BENCH_SHAPE_SIZES := by
  obtain ⟨hrows, hrecords⟩ := run_backend_core_spec meas bl bname sizes tests
  have h1 : (run_backend meas bl bname tests sizes).rows =
      tests.map (fun t =>
        (t.name, (testCells meas bl bname t sizes).map format_cell)) := hrows
  have h2 : (run_backend meas bl bname tests sizes).records =
      tests.map (fun t =>
        (⟨t.name, DEFAULT_COMP_OP_NAME, SOLID_STYLE,
          sizes.map fun s =>
            format_cpms (cpms (meas t s).1 (meas t s).2)⟩ : JsonRecord)) := hrecords
  refine ⟨h1, h2, by rw [h1]; simp, by rw [h2]; simp, ?_, rfl,
    by norm_num [BENCH_SHAPE_SIZES, List.chain'_cons]⟩
  intro t
  simp [testCells]

end VelloBench
